import Mathlib

/-!
Verification of the node-graph editor core (BlueprintCanvas / ChatInterface).

The data model and every operation below are shallow embeddings of the
TypeScript source: `getNodePinPos`, `getPathD`, `handleNodeMouseDown`,
`handlePinMouseDown`, `handlePinMouseUp`, `handleMouseMove`, `handleMouseUp`,
`deleteNode` from BlueprintCanvas, and the node-injection branch of
`handleSend` from ChatInterface.  Coordinates are rationals (JS numbers on
the values the editor produces are exact here: additions, subtractions and
halving).  `Date.now()` is threaded through events as an explicit `now`
parameter.
-/

namespace BPEditor

/-- A node of the graph (types.ts `BlueprintNode`). -/
structure BlueprintNode where
  id : String
  name : String
  type : String
  x : ℚ
  y : ℚ
  inputs : List String
  outputs : List String
deriving DecidableEq

/-- A stored connection (types.ts `Connection`). -/
structure Connection where
  id : String
  fromNodeId : String
  fromPin : String
  toNodeId : String
  toPin : String
deriving DecidableEq

/-- Ephemeral pending-draw state (`drawingConnection`). -/
structure DrawingConnection where
  startNodeId : String
  startPin : String
  isInput : Bool
  startX : ℚ
  startY : ℚ
  currX : ℚ
  currY : ℚ
deriving DecidableEq

/-- A 2D point. -/
structure Point where
  x : ℚ
  y : ℚ
deriving DecidableEq

-- Fixed visual constants of BlueprintCanvas.
def NODE_WIDTH : ℚ := 160
def HEADER_HEIGHT : ℚ := 28
def BODY_PADDING : ℚ := 8
def PIN_ROW_HEIGHT : ℚ := 20
def PIN_GAP : ℚ := 4
def PIN_OFFSET_Y : ℚ := 10
def PIN_OFFSET_X : ℚ := 12

/-- `getNodePinPos(node, pinIndex, isInput)`. -/
def getNodePinPos (node : BlueprintNode) (pinIndex : ℕ) (isInput : Bool) : Point :=
  { x := if isInput then node.x + PIN_OFFSET_X else node.x + NODE_WIDTH - PIN_OFFSET_X
    y := node.y + HEADER_HEIGHT + BODY_PADDING
          + (pinIndex : ℚ) * (PIN_ROW_HEIGHT + PIN_GAP) + PIN_OFFSET_Y }

/-- The data interpolated into the SVG string
`M x1 y1 C cp1x y1, cp2x y2, x2 y2` built by `getPathD`. -/
structure CubicPath where
  mX : ℚ
  mY : ℚ
  c1x : ℚ
  c1y : ℚ
  c2x : ℚ
  c2y : ℚ
  endX : ℚ
  endY : ℚ
deriving DecidableEq

/-- `getPathD(x1, y1, x2, y2)`. -/
def getPathD (x1 y1 x2 y2 : ℚ) : CubicPath :=
  let dist := |x2 - x1|
  let cp1x := x1 + dist * (0.5 : ℚ)
  let cp2x := x2 - dist * (0.5 : ℚ)
  { mX := x1, mY := y1, c1x := cp1x, c1y := y1, c2x := cp2x, c2y := y2, endX := x2, endY := y2 }

/-- The mutable state owned by the surface: the two collections plus the
interaction state (`selectedNode`/`dragOffset` for node drags,
`drawingConnection` for pending draws). -/
structure EditorState where
  nodes : List BlueprintNode
  connections : List Connection
  selectedNode : Option String
  dragOffset : Option Point
  drawingConnection : Option DrawingConnection
deriving DecidableEq

def initState : EditorState :=
  { nodes := [], connections := [], selectedNode := none,
    dragOffset := none, drawingConnection := none }

/-- `handleNodeMouseDown(e, id)`. -/
def handleNodeMouseDown (id : String) (clientX clientY : ℚ) (s : EditorState) : EditorState :=
  match s.nodes.find? (fun n => n.id == id) with
  | none => s
  | some node =>
    { s with selectedNode := some id
             dragOffset := some ({ x := clientX - node.x, y := clientY - node.y } : Point) }

/-- `handlePinMouseDown(e, nodeId, pinName, isInput, index)`. -/
def handlePinMouseDown (nodeId pinName : String) (isInput : Bool) (index : ℕ)
    (s : EditorState) : EditorState :=
  match s.nodes.find? (fun n => n.id == nodeId) with
  | none => s
  | some node =>
    let p := getNodePinPos node index isInput
    let dc : DrawingConnection :=
      { startNodeId := nodeId, startPin := pinName, isInput := isInput,
        startX := p.x, startY := p.y, currX := p.x, currY := p.y }
    { s with drawingConnection := some dc }

/-- The duplicate test used in `handlePinMouseUp` (`connections.some(...)`). -/
def sameTuple (a b : Connection) : Bool :=
  a.fromNodeId == b.fromNodeId && a.fromPin == b.fromPin &&
  a.toNodeId == b.toNodeId && a.toPin == b.toPin

/-- The `newConnection` object literal built in `handlePinMouseUp`:
the released pin's direction decides which end becomes `from`. -/
def mkNewConnection (dc : DrawingConnection) (nodeId pinName : String) (isInput : Bool)
    (now : ℕ) : Connection :=
  { id := "conn-" ++ toString now
    fromNodeId := if isInput then dc.startNodeId else nodeId
    fromPin := if isInput then dc.startPin else pinName
    toNodeId := if isInput then nodeId else dc.startNodeId
    toPin := if isInput then pinName else dc.startPin }

/-- `handlePinMouseUp(e, nodeId, pinName, isInput)`; `now` is `Date.now()`. -/
def handlePinMouseUp (nodeId pinName : String) (isInput : Bool) (now : ℕ)
    (s : EditorState) : EditorState :=
  match s.drawingConnection with
  | none => s
  | some dc =>
    if dc.startNodeId = nodeId then
      { s with drawingConnection := none }
    else if dc.isInput = isInput then
      { s with drawingConnection := none }
    else
      let newConnection := mkNewConnection dc nodeId pinName isInput now
      let isDup := s.connections.any fun c => sameTuple c newConnection
      { s with
          connections := if isDup then s.connections else s.connections ++ [newConnection]
          drawingConnection := none }

/-- `handleMouseMove(e)`; `rectLeft`/`rectTop` are the canvas bounding-rect offsets. -/
def handleMouseMove (clientX clientY rectLeft rectTop : ℚ) (s : EditorState) : EditorState :=
  match s.selectedNode, s.dragOffset with
  | some sel, some off =>
    { s with nodes := s.nodes.map fun n =>
        if n.id = sel then { n with x := clientX - off.x, y := clientY - off.y } else n }
  | _, _ =>
    match s.drawingConnection with
    | some dc =>
      let dc2 : DrawingConnection :=
        { dc with currX := clientX - rectLeft, currY := clientY - rectTop }
      { s with drawingConnection := some dc2 }
    | none => s

/-- `handleMouseUp()` (the canvas-level handler). -/
def handleMouseUp (s : EditorState) : EditorState :=
  { s with selectedNode := none, dragOffset := none, drawingConnection := none }

/-- `deleteNode(id, e)`. -/
def deleteNode (id : String) (s : EditorState) : EditorState :=
  { s with nodes := s.nodes.filter fun n => n.id != id
           connections := s.connections.filter fun c =>
             c.fromNodeId != id && c.toNodeId != id }

/-- A raw node descriptor as parsed from the generator's JSON
(`parsed.nodes` in `handleSend`); absent/`null` fields are `none`. -/
structure RawNodeDescriptor where
  name : String
  type : Option String
  inputs : Option (List String)
  outputs : Option (List String)
deriving DecidableEq

/-- JS `v || dflt` on a possibly-missing string (the empty string is falsy). -/
def jsOrString (v : Option String) (dflt : String) : String :=
  match v with
  | none => dflt
  | some s => if s = "" then dflt else s

/-- JS `v || dflt` on a possibly-missing array (every array is truthy). -/
def jsOrList (v : Option (List String)) (dflt : List String) : List String :=
  v.getD dflt

/-- One element of the `parsed.nodes.map((n, idx) => ...)` in `handleSend`;
`now` is `Date.now()`. -/
def descriptorToNode (now idx : ℕ) (n : RawNodeDescriptor) : BlueprintNode :=
  { id := "node-" ++ toString now ++ "-" ++ toString idx
    name := n.name
    type := jsOrString n.type "function"
    inputs := jsOrList n.inputs []
    outputs := jsOrList n.outputs []
    x := 100 + (idx : ℚ) * 250
    y := 100 + ((idx % 2 : ℕ) : ℚ) * 100 }

/-- `parsed.nodes.map((n, idx) => ...)` unrolled with an explicit running index. -/
def buildNodes (now : ℕ) : ℕ → List RawNodeDescriptor → List BlueprintNode
  | _, [] => []
  | idx, d :: rest => descriptorToNode now idx d :: buildNodes now (idx + 1) rest

/-- The node-injection branch of `handleSend`:
`setNodes(prev => [...prev, ...newNodes])`. -/
def injectNodes (descriptors : List RawNodeDescriptor) (now : ℕ)
    (s : EditorState) : EditorState :=
  { s with nodes := s.nodes ++ buildNodes now 0 descriptors }

/-- The pointer/command events the surface reacts to.  A `pinMouseUp` is a
pointer-up over a pin glyph (it stops propagation, so the canvas handler does
not run); `mouseUp` is a pointer-up anywhere else on the canvas. -/
inductive Event where
  | nodeMouseDown (id : String) (clientX clientY : ℚ)
  | pinMouseDown (nodeId pinName : String) (isInput : Bool) (index : ℕ)
  | pinMouseUp (nodeId pinName : String) (isInput : Bool) (now : ℕ)
  | mouseMove (clientX clientY rectLeft rectTop : ℚ)
  | mouseUp
  | deleteNode (id : String)
  | inject (descriptors : List RawNodeDescriptor) (now : ℕ)
deriving DecidableEq

/-- One synchronous event-handler invocation. -/
def step (e : Event) (s : EditorState) : EditorState :=
  match e with
  | .nodeMouseDown id cx cy => handleNodeMouseDown id cx cy s
  | .pinMouseDown nodeId pinName isInput index => handlePinMouseDown nodeId pinName isInput index s
  | .pinMouseUp nodeId pinName isInput now => handlePinMouseUp nodeId pinName isInput now s
  | .mouseMove cx cy rl rt => handleMouseMove cx cy rl rt s
  | .mouseUp => handleMouseUp s
  | .deleteNode id => deleteNode id s
  | .inject ds now => injectNodes ds now s

/-- Run a sequence of events. -/
def run (events : List Event) (s : EditorState) : EditorState :=
  events.foldl (fun s e => step e s) s

/-- States reachable from the empty editor by any event sequence. -/
inductive Reachable : EditorState → Prop where
  | init : Reachable initState
  | next {s : EditorState} (e : Event) : Reachable s → Reachable (step e s)

/-- The two pointer events of one completed pin-to-pin drag between output
pin `O` on node `A` and input pin `I` on node `B`: when `started` the drag
begins at the output end, otherwise at the input end. -/
def dragEvents (started : Bool) (A O B I : String) (i now : ℕ) : List Event :=
  if started then [.pinMouseDown A O false i, .pinMouseUp B I true now]
  else [.pinMouseDown B I true i, .pinMouseUp A O false now]

/-- Decimal value of a digit string (reads `'0'..'9'` as 0..9). -/
def decodeDec (ds : List Char) : ℕ :=
  ds.foldl (fun acc c => acc * 10 + (c.toNat - 48)) 0

-- Concrete fixtures used by the witness and counterexample theorems below.

def descJump : RawNodeDescriptor :=
  { name := "Event Jump", type := some "event", inputs := some [], outputs := some ["Out"] }

def descLaunch : RawNodeDescriptor :=
  { name := "Launch Character", type := some "function", inputs := some ["In"], outputs := some [] }

def nodeA : BlueprintNode :=
  { id := "A", name := "Event Jump", type := "event", x := 0, y := 0,
    inputs := [], outputs := ["o"] }

def nodeB : BlueprintNode :=
  { id := "B", name := "Launch Character", type := "function", x := 300, y := 40,
    inputs := ["i"], outputs := [] }

def twoNodeState : EditorState :=
  { nodes := [nodeA, nodeB], connections := [], selectedNode := none,
    dragOffset := none, drawingConnection := none }

def dcWitness : DrawingConnection :=
  { startNodeId := "A", startPin := "o", isInput := false,
    startX := 148, startY := 46, currX := 148, currY := 46 }

def armedState : EditorState :=
  { twoNodeState with drawingConnection := some dcWitness }

/-- The connection committed by the drag `dragEvents true "A" "o" "B" "i" 0 3`
on `twoNodeState`. -/
def connW : Connection :=
  { id := "conn-3", fromNodeId := "A", fromPin := "o", toNodeId := "B", toPin := "i" }

/-- A draw is started on a pin of the first injected node, that node is then
deleted, and the pointer is released over an opposite-direction pin of the
second injected node. -/
def c7Events : List Event :=
  [ .inject [descJump, descLaunch] 0,
    .pinMouseDown "node-0-0" "Out" false 0,
    .deleteNode "node-0-0",
    .pinMouseUp "node-0-1" "In" true 7 ]

/-- A node drag is started on the first injected node (pointer-down at
(105, 110)); the next event is a pointer-up over a pin glyph. -/
def c8Events : List Event :=
  [ .inject [descJump] 0,
    .nodeMouseDown "node-0-0" 105 110 ]

/-- A pending draw whose origin node `node-0-0` will be absent: output pin
`Out` anchored at the position computed for a node placed at (100, 100). -/
def dcC7 : DrawingConnection :=
  { startNodeId := "node-0-0", startPin := "Out", isInput := false,
    startX := 248, startY := 146, currX := 248, currY := 146 }

/-- The deleted-origin scenario as an explicit state: only `node-0-1`
remains, yet the pending draw still names `node-0-0` as its origin. -/
def c7State : EditorState :=
  { nodes := [descriptorToNode 0 1 descLaunch], connections := [],
    selectedNode := none, dragOffset := none, drawingConnection := some dcC7 }

/-! Helper lemmas.  First: `Nat.repr` is injective, proved by decoding the
digit string back to the number, so that the generated node ids
`node-{now}-{idx}` are distinct for distinct indices. -/

lemma foldl_decode (ds : List Char) (a : ℕ) :
    ds.foldl (fun acc c => acc * 10 + (c.toNat - 48)) a
      = a * 10 ^ ds.length + decodeDec ds := by
  induction ds generalizing a with
  | nil => simp [decodeDec]
  | cons c t ih =>
    simp only [List.foldl_cons, List.length_cons, decodeDec] at ih ⊢
    rw [ih (a * 10 + (c.toNat - 48)), ih (0 * 10 + (c.toNat - 48))]
    ring

lemma decodeDec_cons (c : Char) (t : List Char) :
    decodeDec (c :: t) = (c.toNat - 48) * 10 ^ t.length + decodeDec t := by
  have h : decodeDec (c :: t)
      = t.foldl (fun acc c => acc * 10 + (c.toNat - 48)) (0 * 10 + (c.toNat - 48)) := rfl
  rw [h, foldl_decode]
  ring

lemma digitChar_val : ∀ m, m < 10 → (Nat.digitChar m).toNat - 48 = m := by decide

lemma toDigitsCore_decode :
    ∀ (fuel n : ℕ), n < 10 ^ fuel → ∀ (ds : List Char),
      decodeDec (Nat.toDigitsCore 10 fuel n ds) = n * 10 ^ ds.length + decodeDec ds := by
  intro fuel
  induction fuel with
  | zero =>
    intro n h ds
    interval_cases n
    simp [Nat.toDigitsCore]
  | succ f ih =>
    intro n h ds
    by_cases h10 : n / 10 = 0
    · have hn : n < 10 := by omega
      have : Nat.toDigitsCore 10 (f + 1) n ds = Nat.digitChar (n % 10) :: ds := by
        simp [Nat.toDigitsCore, h10]
      rw [this, decodeDec_cons, digitChar_val _ (Nat.mod_lt n (by norm_num)),
        Nat.mod_eq_of_lt hn]
    · have hrec : Nat.toDigitsCore 10 (f + 1) n ds
          = Nat.toDigitsCore 10 f (n / 10) (Nat.digitChar (n % 10) :: ds) := by
        simp [Nat.toDigitsCore, h10]
      have hlt : n / 10 < 10 ^ f := by
        rw [Nat.div_lt_iff_lt_mul (by norm_num)]
        calc n < 10 ^ (f + 1) := h
        _ = 10 ^ f * 10 := by ring
      rw [hrec, ih (n / 10) hlt, decodeDec_cons,
        digitChar_val _ (Nat.mod_lt n (by norm_num))]
      have hsplit : 10 * (n / 10) + n % 10 = n := Nat.div_add_mod n 10
      calc n / 10 * 10 ^ (Nat.digitChar (n % 10) :: ds).length
            + (n % 10 * 10 ^ ds.length + decodeDec ds)
          = (10 * (n / 10) + n % 10) * 10 ^ ds.length + decodeDec ds := by
            simp only [List.length_cons]
            ring
        _ = n * 10 ^ ds.length + decodeDec ds := by rw [hsplit]

lemma decodeDec_toDigits (n : ℕ) : decodeDec (Nat.toDigits 10 n) = n := by
  have h : n < 10 ^ (n + 1) :=
    lt_of_lt_of_le (Nat.lt_two_pow n)
      (le_trans (Nat.pow_le_pow_left (by norm_num) n)
        (Nat.pow_le_pow_right (by norm_num) (Nat.le_succ n)))
  have := toDigitsCore_decode (n + 1) n h []
  simpa [Nat.toDigits, decodeDec] using this

lemma natRepr_inj {m n : ℕ} (h : Nat.repr m = Nat.repr n) : m = n := by
  have h2 : Nat.toDigits 10 m = Nat.toDigits 10 n := by
    have hd := congrArg String.data h
    simpa [Nat.repr, List.asString] using hd
  have := congrArg decodeDec h2
  simpa [decodeDec_toDigits] using this

lemma nodeId_inj (now : ℕ) {i j : ℕ}
    (h : "node-" ++ toString now ++ "-" ++ toString i
       = "node-" ++ toString now ++ "-" ++ toString j) : i = j := by
  apply natRepr_inj
  apply String.ext
  have hd := congrArg String.data h
  simp only [String.data_append, List.append_assoc] at hd
  exact List.append_cancel_left (List.append_cancel_left (List.append_cancel_left hd))

/-! Indexing lemmas for `buildNodes`. -/

lemma buildNodes_length (now : ℕ) : ∀ (k : ℕ) (ds : List RawNodeDescriptor),
    (buildNodes now k ds).length = ds.length := by
  intro k ds
  induction ds generalizing k with
  | nil => rfl
  | cons d rest ih => simp [buildNodes, ih]

/-! Which events can change the connection collection. -/

lemma handleNodeMouseDown_connections (id : String) (cx cy : ℚ) (s : EditorState) :
    (handleNodeMouseDown id cx cy s).connections = s.connections := by
  unfold handleNodeMouseDown
  split <;> rfl

lemma handlePinMouseDown_connections (nodeId pinName : String) (isInput : Bool) (index : ℕ)
    (s : EditorState) :
    (handlePinMouseDown nodeId pinName isInput index s).connections = s.connections := by
  unfold handlePinMouseDown
  split <;> rfl

lemma handleMouseMove_connections (cx cy rl rt : ℚ) (s : EditorState) :
    (handleMouseMove cx cy rl rt s).connections = s.connections := by
  unfold handleMouseMove
  split
  · rfl
  · split <;> rfl

/-- `handlePinMouseUp` either leaves the connections unchanged or, when a
pending draw ends on a different node with the opposite direction and no
tuple-equal connection exists, appends exactly the normalized connection. -/
lemma handlePinMouseUp_cases (nodeId pinName : String) (isInput : Bool) (now : ℕ)
    (s : EditorState) :
    (handlePinMouseUp nodeId pinName isInput now s).connections = s.connections ∨
    ∃ dc, s.drawingConnection = some dc ∧ dc.startNodeId ≠ nodeId ∧ dc.isInput ≠ isInput ∧
      (s.connections.any fun c => sameTuple c (mkNewConnection dc nodeId pinName isInput now))
        = false ∧
      (handlePinMouseUp nodeId pinName isInput now s).connections
        = s.connections ++ [mkNewConnection dc nodeId pinName isInput now] := by
  unfold handlePinMouseUp
  cases hdc : s.drawingConnection with
  | none => exact Or.inl rfl
  | some dc =>
    by_cases h1 : dc.startNodeId = nodeId
    · exact Or.inl (by simp [h1])
    by_cases h2 : dc.isInput = isInput
    · exact Or.inl (by simp [h1, h2])
    by_cases h3 : (s.connections.any fun c =>
        sameTuple c (mkNewConnection dc nodeId pinName isInput now)) = true
    · exact Or.inl (by simp [h1, h2, h3])
    · refine Or.inr ⟨dc, rfl, h1, h2, by simpa using h3, ?_⟩
      simp [h1, h2, Bool.eq_false_iff.mpr h3]

lemma buildNodes_getElem? (now : ℕ) :
    ∀ (ds : List RawNodeDescriptor) (k i : ℕ),
      (buildNodes now k ds)[i]? = (ds[i]?).map (fun d => descriptorToNode now (k + i) d) := by
  intro ds
  induction ds with
  | nil => intro k i; simp [buildNodes]
  | cons d rest ih =>
    intro k i
    cases i with
    | zero => simp [buildNodes]
    | succ i =>
      simp only [buildNodes, List.getElem?_cons_succ, ih (k + 1) i]
      have : k + 1 + i = k + (i + 1) := by ring
      rw [this]

lemma mkNewConnection_no_self (dc : DrawingConnection) (nodeId pinName : String)
    (isInput : Bool) (now : ℕ) (h1 : dc.startNodeId ≠ nodeId) :
    (mkNewConnection dc nodeId pinName isInput now).fromNodeId
      ≠ (mkNewConnection dc nodeId pinName isInput now).toNodeId := by
  cases isInput <;> simp [mkNewConnection] <;> [exact Ne.symm h1; exact h1]

lemma step_noSelfLoop {s : EditorState} (e : Event)
    (h : ∀ c ∈ s.connections, c.fromNodeId ≠ c.toNodeId) :
    ∀ c ∈ (step e s).connections, c.fromNodeId ≠ c.toNodeId := by
  cases e with
  | nodeMouseDown id cx cy =>
    simpa only [step, handleNodeMouseDown_connections] using h
  | pinMouseDown nodeId pinName isInput index =>
    simpa only [step, handlePinMouseDown_connections] using h
  | mouseMove cx cy rl rt =>
    simpa only [step, handleMouseMove_connections] using h
  | mouseUp => exact h
  | deleteNode id =>
    intro c hc
    simp only [step, deleteNode] at hc
    exact h c (List.mem_filter.mp hc).1
  | inject ds now => exact h
  | pinMouseUp nodeId pinName isInput now =>
    intro c hc
    simp only [step] at hc
    rcases handlePinMouseUp_cases nodeId pinName isInput now s with
      hcase | ⟨dc, hdc, h1, h2, hdup, heq⟩
    · rw [hcase] at hc
      exact h c hc
    · rw [heq] at hc
      rcases List.mem_append.mp hc with hc | hc
      · exact h c hc
      · rw [List.mem_singleton.mp hc]
        exact mkNewConnection_no_self dc nodeId pinName isInput now h1

/-- C4: in every reachable state no stored connection is a self-loop; a
pointer-up whose release direction equals the pending draw's direction never
changes the connection collection; and any pointer-up that does change it was
released on a different node with the direction opposite to the origin pin's,
so a created connection always has exactly one input and one output end. -/
theorem C4_no_self_loops_one_in_one_out :
    (∀ s, Reachable s → ∀ c ∈ s.connections, c.fromNodeId ≠ c.toNodeId) ∧
    (∀ s dc nodeId pinName isInput now,
      s.drawingConnection = some dc → dc.isInput = isInput →
      (step (.pinMouseUp nodeId pinName isInput now) s).connections = s.connections) ∧
    (∀ s nodeId pinName isInput now,
      (step (.pinMouseUp nodeId pinName isInput now) s).connections ≠ s.connections →
      ∃ dc, s.drawingConnection = some dc ∧ dc.startNodeId ≠ nodeId ∧ dc.isInput = !isInput) := by
  refine ⟨?_, ?_, ?_⟩
  · intro s hs
    induction hs with
    | init => intro c hc; simp [initState] at hc
    | next e _ ih => exact step_noSelfLoop e ih
  · intro s dc nodeId pinName isInput now hdc hdir
    simp only [step]
    unfold handlePinMouseUp
    rw [hdc]
    by_cases h1 : dc.startNodeId = nodeId <;> simp [h1, hdir]
  · intro s nodeId pinName isInput now hne
    simp only [step] at hne
    rcases handlePinMouseUp_cases nodeId pinName isInput now s with
      hcase | ⟨dc, hdc, h1, h2, _, _⟩
    · exact absurd hcase hne
    · refine ⟨dc, hdc, h1, ?_⟩
      cases hb : dc.isInput <;> cases hi : isInput <;> simp_all

/-- Witness for C4: the initial state is reachable and self-loop-free, a
same-direction release (output origin, output release) changes nothing, and a
committing release on the armed two-node state satisfies the characterization. -/
theorem C4_witness :
    (∀ c ∈ initState.connections, c.fromNodeId ≠ c.toNodeId) ∧
    (step (.pinMouseUp "B" "i" false 3) armedState).connections = armedState.connections ∧
    ∃ dc, armedState.drawingConnection = some dc ∧ dc.startNodeId ≠ "B" ∧ dc.isInput = !true := by
  refine ⟨C4_no_self_loops_one_in_one_out.1 initState Reachable.init, ?_, ?_⟩
  · exact C4_no_self_loops_one_in_one_out.2.1 armedState dcWitness "B" "i" false 3 rfl rfl
  · exact C4_no_self_loops_one_in_one_out.2.2 armedState "B" "i" true 3 (by decide)

lemma reachable_run_from (events : List Event) :
    ∀ s, Reachable s → Reachable (run events s) := by
  induction events with
  | nil => intro s hs; exact hs
  | cons e t ih => intro s hs; exact ih (step e s) (Reachable.next e hs)

lemma reachable_run (events : List Event) : Reachable (run events initState) :=
  reachable_run_from events initState Reachable.init

/-- Rewriting form of `handlePinMouseUp` when the pending draw is known. -/
lemma handlePinMouseUp_eq (nodeId pinName : String) (isInput : Bool) (now : ℕ)
    (s : EditorState) (dc : DrawingConnection) (hdc : s.drawingConnection = some dc) :
    handlePinMouseUp nodeId pinName isInput now s =
      if dc.startNodeId = nodeId then { s with drawingConnection := none }
      else if dc.isInput = isInput then { s with drawingConnection := none }
      else
        { s with
            connections :=
              if s.connections.any fun c =>
                  sameTuple c (mkNewConnection dc nodeId pinName isInput now) then
                s.connections
              else s.connections ++ [mkNewConnection dc nodeId pinName isInput now]
            drawingConnection := none } := by
  unfold handlePinMouseUp
  rw [hdc]

lemma sameTuple_mkNew_now (c : Connection) (dc : DrawingConnection)
    (nodeId pinName : String) (isInput : Bool) (n1 n2 : ℕ) :
    sameTuple c (mkNewConnection dc nodeId pinName isInput n1)
      = sameTuple c (mkNewConnection dc nodeId pinName isInput n2) := rfl

lemma sameTuple_mkNew_self (dc : DrawingConnection) (nodeId pinName : String)
    (isInput : Bool) (n1 n2 : ℕ) :
    sameTuple (mkNewConnection dc nodeId pinName isInput n1)
      (mkNewConnection dc nodeId pinName isInput n2) = true := by
  cases isInput <;> simp [sameTuple, mkNewConnection]

lemma step_noDupTuples {s : EditorState} (e : Event)
    (h : s.connections.Pairwise fun a b => sameTuple a b = false) :
    (step e s).connections.Pairwise fun a b => sameTuple a b = false := by
  cases e with
  | nodeMouseDown id cx cy =>
    simpa only [step, handleNodeMouseDown_connections] using h
  | pinMouseDown nodeId pinName isInput index =>
    simpa only [step, handlePinMouseDown_connections] using h
  | mouseMove cx cy rl rt =>
    simpa only [step, handleMouseMove_connections] using h
  | mouseUp => exact h
  | deleteNode id =>
    simp only [step, deleteNode]
    exact h.sublist (List.filter_sublist _)
  | inject ds now => exact h
  | pinMouseUp nodeId pinName isInput now =>
    simp only [step]
    rcases handlePinMouseUp_cases nodeId pinName isInput now s with
      hcase | ⟨dc, hdc, h1, h2, hdup, heq⟩
    · rw [hcase]; exact h
    · rw [heq]
      apply List.pairwise_append.mpr
      refine ⟨h, List.pairwise_singleton _ _, ?_⟩
      intro a ha b hb
      rw [List.mem_singleton.mp hb]
      exact Bool.eq_false_iff.mpr (List.any_eq_false.mp hdup a ha)

/-- C5: in every reachable state no two stored connections agree on the whole
(fromNodeId, fromPin, toNodeId, toPin) tuple, and re-finalizing the very same
pending draw a second time leaves the connection collection unchanged. -/
theorem C5_no_duplicate_connections :
    (∀ s, Reachable s → s.connections.Pairwise fun a b => sameTuple a b = false) ∧
    (∀ s dc nodeId pinName isInput now1 now2,
      s.drawingConnection = some dc →
      (step (.pinMouseUp nodeId pinName isInput now2)
          { step (.pinMouseUp nodeId pinName isInput now1) s with
              drawingConnection := some dc }).connections
        = (step (.pinMouseUp nodeId pinName isInput now1) s).connections) := by
  constructor
  · intro s hs
    induction hs with
    | init => exact List.Pairwise.nil
    | next e _ ih => exact step_noDupTuples e ih
  · intro s dc nodeId pinName isInput now1 now2 hdc
    simp only [step]
    rw [handlePinMouseUp_eq nodeId pinName isInput now2 _ dc rfl,
      handlePinMouseUp_eq nodeId pinName isInput now1 s dc hdc]
    by_cases h1 : dc.startNodeId = nodeId
    · simp [h1]
    by_cases h2 : dc.isInput = isInput
    · simp [h1, h2]
    simp only [if_neg h1, if_neg h2]
    by_cases hd1 : (s.connections.any fun c =>
        sameTuple c (mkNewConnection dc nodeId pinName isInput now1)) = true
    · rcases List.any_eq_true.mp hd1 with ⟨c, hc, hct⟩
      have hd2 : (s.connections.any fun c =>
          sameTuple c (mkNewConnection dc nodeId pinName isInput now2)) = true :=
        List.any_eq_true.mpr ⟨c, hc, by rw [← sameTuple_mkNew_now c dc nodeId pinName isInput now1 now2]; exact hct⟩
      simp [hd1, hd2]
    · have hd2 : ((s.connections ++ [mkNewConnection dc nodeId pinName isInput now1]).any
          fun c => sameTuple c (mkNewConnection dc nodeId pinName isInput now2)) = true := by
        rw [List.any_append]
        simp only [List.any_cons, List.any_nil, Bool.or_false,
          sameTuple_mkNew_self, Bool.or_true]
      simp [hd1, hd2]

/-- Witness for C5: the state after the four-event trace is duplicate-free,
and repeating the armed drag (release on node B's input pin) a second time
adds nothing. -/
theorem C5_witness :
    ((run c7Events initState).connections.Pairwise fun a b => sameTuple a b = false) ∧
    (step (.pinMouseUp "B" "i" true 2)
        { step (.pinMouseUp "B" "i" true 1) armedState with
            drawingConnection := some dcWitness }).connections
      = (step (.pinMouseUp "B" "i" true 1) armedState).connections := by
  constructor
  · exact C5_no_duplicate_connections.1 _ (reachable_run c7Events)
  · exact C5_no_duplicate_connections.2 armedState dcWitness "B" "i" true 1 2 rfl

/-- C2: deleting node id `X` removes every node with that id and every
connection touching it, leaves all other nodes and connections (in order),
and afterwards no connection references `X`. -/
theorem C2_delete_node (s : EditorState) (X : String)
    (_hX : ∃ n ∈ s.nodes, n.id = X) :
    (∀ n ∈ (deleteNode X s).nodes, n.id ≠ X) ∧
    (∀ c ∈ (deleteNode X s).connections, c.fromNodeId ≠ X ∧ c.toNodeId ≠ X) ∧
    (∀ n, n ∈ (deleteNode X s).nodes ↔ n ∈ s.nodes ∧ n.id ≠ X) ∧
    (∀ c, c ∈ (deleteNode X s).connections ↔
      c ∈ s.connections ∧ c.fromNodeId ≠ X ∧ c.toNodeId ≠ X) ∧
    (deleteNode X s).nodes.Sublist s.nodes ∧
    (deleteNode X s).connections.Sublist s.connections := by
  unfold deleteNode
  refine ⟨?_, ?_, ?_, ?_, List.filter_sublist _, List.filter_sublist _⟩
  · intro n hn
    simpa using (List.mem_filter.mp hn).2
  · intro c hc
    have h2 := (List.mem_filter.mp hc).2
    simp only [Bool.and_eq_true, bne_iff_ne] at h2
    exact h2
  · intro n
    simp [List.mem_filter]
  · intro c
    simp [List.mem_filter, and_assoc]

/-- Witness for C2: delete node A from the two-node fixture. -/
theorem C2_witness :
    (∀ n ∈ (deleteNode "A" twoNodeState).nodes, n.id ≠ "A") ∧
    (∀ c ∈ (deleteNode "A" twoNodeState).connections,
      c.fromNodeId ≠ "A" ∧ c.toNodeId ≠ "A") :=
  ⟨(C2_delete_node twoNodeState "A" ⟨nodeA, by decide, rfl⟩).1,
   (C2_delete_node twoNodeState "A" ⟨nodeA, by decide, rfl⟩).2.1⟩

/-- C3: the pin position is `x = node.x + 12` for inputs and
`x = node.x + 160 - 12` for outputs, `y = node.y + 28 + 8 + i*(20+4) + 20/2`,
it translates exactly with the node origin, and it depends on nothing of the
node besides its origin. -/
theorem C3_pin_position (node : BlueprintNode) (pinIndex : ℕ) (isInput : Bool)
    (dx dy : ℚ) (i nm t : String) (ins outs : List String) :
    ((getNodePinPos node pinIndex isInput).x
        = if isInput then node.x + 12 else node.x + 160 - 12) ∧
    ((getNodePinPos node pinIndex isInput).y
        = node.y + 28 + 8 + (pinIndex : ℚ) * (20 + 4) + 20 / 2) ∧
    (getNodePinPos { node with x := node.x + dx, y := node.y + dy } pinIndex isInput
        = { x := (getNodePinPos node pinIndex isInput).x + dx
            y := (getNodePinPos node pinIndex isInput).y + dy }) ∧
    (getNodePinPos { node with id := i, name := nm, type := t, inputs := ins, outputs := outs }
        pinIndex isInput = getNodePinPos node pinIndex isInput) := by
  refine ⟨?_, ?_, ?_, ?_⟩
  · cases isInput <;>
      simp [getNodePinPos, NODE_WIDTH, PIN_OFFSET_X]
  · simp [getNodePinPos, HEADER_HEIGHT, BODY_PADDING, PIN_ROW_HEIGHT, PIN_GAP, PIN_OFFSET_Y]
    norm_num
  · cases isInput <;>
      simp [getNodePinPos, Point.mk.injEq] <;> constructor <;> ring
  · rfl

/-- C9: `getPathD` is the cubic from `(x1, y1)` to `(x2, y2)` with control
points `(x1 + d/2, y1)` and `(x2 - d/2, y2)` where `d = |x2 - x1|`; each
control point shares its endpoint's y-coordinate. -/
theorem C9_bezier_path (x1 y1 x2 y2 : ℚ) :
    getPathD x1 y1 x2 y2 =
      { mX := x1, mY := y1
        c1x := x1 + |x2 - x1| / 2, c1y := y1
        c2x := x2 - |x2 - x1| / 2, c2y := y2
        endX := x2, endY := y2 } := by
  simp only [getPathD, CubicPath.mk.injEq]
  norm_num
  ring

/-- C10: descriptor ingestion copies `name` unchanged, defaults a missing or
falsy `type` to "function", keeps a non-falsy `type`, and defaults missing
`inputs`/`outputs` to the empty list while keeping present ones. -/
theorem C10_descriptor_defaults (now idx : ℕ) (d : RawNodeDescriptor) :
    ((descriptorToNode now idx d).name = d.name) ∧
    ((d.type = none ∨ d.type = some "") → (descriptorToNode now idx d).type = "function") ∧
    (∀ t, d.type = some t → t ≠ "" → (descriptorToNode now idx d).type = t) ∧
    (d.inputs = none → (descriptorToNode now idx d).inputs = []) ∧
    (∀ l, d.inputs = some l → (descriptorToNode now idx d).inputs = l) ∧
    (d.outputs = none → (descriptorToNode now idx d).outputs = []) ∧
    (∀ l, d.outputs = some l → (descriptorToNode now idx d).outputs = l) := by
  refine ⟨rfl, ?_, ?_, ?_, ?_, ?_, ?_⟩
  · rintro (h | h) <;> simp [descriptorToNode, jsOrString, h]
  · intro t ht hne
    simp [descriptorToNode, jsOrString, ht, hne]
  · intro h
    simp [descriptorToNode, jsOrList, h]
  · intro l h
    simp [descriptorToNode, jsOrList, h]
  · intro h
    simp [descriptorToNode, jsOrList, h]
  · intro l h
    simp [descriptorToNode, jsOrList, h]

/-- Witness for C10: a descriptor with all optional fields missing gets
type "function" and empty pin lists; a full descriptor keeps its fields. -/
theorem C10_witness :
    ((descriptorToNode 5 0
        { name := "Branch", type := none, inputs := none, outputs := none }).type
      = "function") ∧
    ((descriptorToNode 5 0
        { name := "Branch", type := none, inputs := none, outputs := none }).inputs = []) ∧
    ((descriptorToNode 5 1 descJump).type = "event") ∧
    ((descriptorToNode 5 1 descJump).outputs = ["Out"]) :=
  ⟨(C10_descriptor_defaults 5 0 _).2.1 (Or.inl rfl),
   (C10_descriptor_defaults 5 0 _).2.2.2.1 rfl,
   (C10_descriptor_defaults 5 1 descJump).2.2.1 "event" rfl (by decide),
   (C10_descriptor_defaults 5 1 descJump).2.2.2.2.2.2 ["Out"] rfl⟩

/-- C1: a completed drag between output pin `O` on node `A` and input pin `I`
on a different node `B` can only store the normalized connection
`from = (A, O)`, `to = (B, I)`, regardless of which end the drag started at. -/
theorem C1_connection_normalized (s : EditorState) (A O B I : String)
    (n0 : BlueprintNode) (i now : ℕ) (started : Bool)
    (hfind : s.nodes.find? (fun n => n.id == (if started then A else B)) = some n0)
    (hAB : A ≠ B) :
    ∀ c ∈ (run (dragEvents started A O B I i now) s).connections,
      c ∈ s.connections ∨
        (c.fromNodeId = A ∧ c.fromPin = O ∧ c.toNodeId = B ∧ c.toPin = I) := by
  cases started with
  | false =>
    simp only [Bool.false_eq_true, if_false] at hfind
    simp only [dragEvents, Bool.false_eq_true, if_false, run, List.foldl_cons,
      List.foldl_nil, step]
    unfold handlePinMouseDown
    rw [hfind]
    rw [handlePinMouseUp_eq A O false now _ _ rfl]
    rw [if_neg (by simpa using Ne.symm hAB), if_neg (by simp)]
    intro c hc
    simp only at hc
    split at hc
    · exact Or.inl hc
    · rcases List.mem_append.mp hc with hmem | hmem
      · exact Or.inl hmem
      · rw [List.mem_singleton.mp hmem]
        exact Or.inr ⟨rfl, rfl, rfl, rfl⟩
  | true =>
    simp only [if_true] at hfind
    simp only [dragEvents, if_true, run, List.foldl_cons, List.foldl_nil, step]
    unfold handlePinMouseDown
    rw [hfind]
    rw [handlePinMouseUp_eq B I true now _ _ rfl]
    rw [if_neg (by simpa using hAB), if_neg (by simp)]
    intro c hc
    simp only at hc
    split at hc
    · exact Or.inl hc
    · rcases List.mem_append.mp hc with hmem | hmem
      · exact Or.inl hmem
      · rw [List.mem_singleton.mp hmem]
        exact Or.inr ⟨rfl, rfl, rfl, rfl⟩

/-- Witness for C1: dragging from output pin `o` of node A to input pin `i`
of node B on the two-node fixture stores exactly the normalized connection
`connW`. -/
theorem C1_witness :
    connW ∈ twoNodeState.connections ∨
      (connW.fromNodeId = "A" ∧ connW.fromPin = "o" ∧
        connW.toNodeId = "B" ∧ connW.toPin = "i") :=
  C1_connection_normalized twoNodeState "A" "o" "B" "i" nodeA 0 3 true
    (by decide) (by decide) connW (by decide)

/-- C6: injecting a batch of `k` descriptors leaves the connections
untouched, appends exactly `k` nodes after the existing ones, places batch
index `idx` at `(100 + idx*250, 100 + (idx % 2)*100)` with the descriptor's
name, and the appended batch has pairwise distinct ids and x-positions. -/
theorem C6_inject_batch (s : EditorState) (ds : List RawNodeDescriptor) (now : ℕ) :
    ((injectNodes ds now s).connections = s.connections) ∧
    ((injectNodes ds now s).nodes.length = s.nodes.length + ds.length) ∧
    ((injectNodes ds now s).nodes.take s.nodes.length = s.nodes) ∧
    (∀ idx d, ds[idx]? = some d →
      ∃ n, ((injectNodes ds now s).nodes)[s.nodes.length + idx]? = some n ∧
        n.name = d.name ∧ n.x = 100 + (idx : ℚ) * 250 ∧
        n.y = 100 + ((idx % 2 : ℕ) : ℚ) * 100) ∧
    ((buildNodes now 0 ds).Pairwise fun a b => a.id ≠ b.id ∧ a.x ≠ b.x) := by
  refine ⟨rfl, ?_, ?_, ?_, ?_⟩
  · simp [injectNodes, buildNodes_length]
  · simp [injectNodes]
  · intro idx d hd
    refine ⟨descriptorToNode now idx d, ?_, rfl, rfl, rfl⟩
    have hidx : s.nodes.length ≤ s.nodes.length + idx := Nat.le_add_right _ _
    simp only [injectNodes]
    rw [List.getElem?_append_right hidx, Nat.add_sub_cancel_left,
      buildNodes_getElem?, hd]
    simp
  · rw [List.pairwise_iff_getElem]
    intro i j hi hj hij
    rw [buildNodes_length] at hi hj
    have hgi : (buildNodes now 0 ds)[i]? = some (descriptorToNode now i (ds.get ⟨i, hi⟩)) := by
      rw [buildNodes_getElem?, List.getElem?_eq_getElem hi]
      simp [List.get_eq_getElem]
    have hgj : (buildNodes now 0 ds)[j]? = some (descriptorToNode now j (ds.get ⟨j, hj⟩)) := by
      rw [buildNodes_getElem?, List.getElem?_eq_getElem hj]
      simp [List.get_eq_getElem]
    rw [List.getElem?_eq_getElem (by rw [buildNodes_length]; exact hi)] at hgi
    rw [List.getElem?_eq_getElem (by rw [buildNodes_length]; exact hj)] at hgj
    rw [Option.some.injEq] at hgi hgj
    rw [hgi, hgj]
    constructor
    · intro h
      simp only [descriptorToNode] at h
      exact absurd (nodeId_inj now h) (Nat.ne_of_lt hij)
    · intro h
      simp only [descriptorToNode] at h
      have h250 : (i : ℚ) * 250 = (j : ℚ) * 250 := by linarith
      have hcast : (i : ℚ) = (j : ℚ) :=
        mul_right_cancel₀ (by norm_num : (250 : ℚ) ≠ 0) h250
      exact absurd (Nat.cast_injective hcast) (Nat.ne_of_lt hij)

/-- Witness for C6: injecting the two-descriptor batch places the second
descriptor at batch index 1 with the staggered position. -/
theorem C6_witness :
    ∃ n, ((injectNodes [descJump, descLaunch] 5 initState).nodes)[initState.nodes.length + 1]?
        = some n ∧
      n.name = descLaunch.name ∧ n.x = 100 + ((1 : ℕ) : ℚ) * 250 ∧
      n.y = 100 + ((1 % 2 : ℕ) : ℚ) * 100 :=
  (C6_inject_batch initState [descJump, descLaunch] 5).2.2.2.1 1 descLaunch rfl

/-- C7 counterexample: after the draw's origin node `node-0-0` is deleted,
the finalizing pointer-up over the surviving node's input pin still changes
the connection collection and stores a connection that references the
deleted node id — the claim's "finalization does not commit" is false. -/
theorem C7_counterexample :
    ((run (c7Events.take 3) initState).drawingConnection ≠ none) ∧
    (∀ n ∈ (run (c7Events.take 3) initState).nodes, n.id ≠ "node-0-0") ∧
    ((run c7Events initState).connections ≠ (run (c7Events.take 3) initState).connections) ∧
    (∃ c ∈ (run c7Events initState).connections, c.fromNodeId = "node-0-0") := by
  decide

/-- C7 (amended): finalization never consults the node collection, so if the
pending draw's origin node has been deleted, a pointer-up on a pin of a
different node with opposite direction (and no duplicate tuple) still commits
a connection, and that connection references the deleted origin node id; the
collection is left unchanged only when the self-node, same-direction or
duplicate rejections fire. -/
theorem C7_amended (s : EditorState) (dc : DrawingConnection)
    (nodeId pinName : String) (isInput : Bool) (now : ℕ)
    (hdc : s.drawingConnection = some dc)
    (_hdeleted : ∀ n ∈ s.nodes, n.id ≠ dc.startNodeId)
    (hnode : dc.startNodeId ≠ nodeId)
    (hdir : dc.isInput ≠ isInput)
    (hnodup : (s.connections.any fun c =>
        sameTuple c (mkNewConnection dc nodeId pinName isInput now)) = false) :
    ((step (.pinMouseUp nodeId pinName isInput now) s).connections
      = s.connections ++ [mkNewConnection dc nodeId pinName isInput now]) ∧
    ((mkNewConnection dc nodeId pinName isInput now).fromNodeId = dc.startNodeId ∨
      (mkNewConnection dc nodeId pinName isInput now).toNodeId = dc.startNodeId) := by
  constructor
  · simp only [step]
    rw [handlePinMouseUp_eq _ _ _ _ _ _ hdc, if_neg hnode, if_neg hdir]
    simp [hnodup]
  · cases isInput <;> simp [mkNewConnection]

/-- Witness for C7 (amended): the concrete deleted-origin state. -/
theorem C7_witness :
    ((step (.pinMouseUp "node-0-1" "In" true 7) c7State).connections
      = c7State.connections ++ [mkNewConnection dcC7 "node-0-1" "In" true 7]) ∧
    ((mkNewConnection dcC7 "node-0-1" "In" true 7).fromNodeId = dcC7.startNodeId ∨
      (mkNewConnection dcC7 "node-0-1" "In" true 7).toNodeId = dcC7.startNodeId) :=
  C7_amended c7State dcC7 "node-0-1" "In" true 7
    rfl (by decide) (by decide) (by decide) rfl

/-- C8 counterexample: with a node drag active, a pointer-up over a pin
glyph (which stops propagation) leaves the dragged-node selection and the
captured offset in place — the drag does not transition to Idle. -/
theorem C8_counterexample :
    ((run c8Events initState).selectedNode = some "node-0-0") ∧
    ((run c8Events initState).dragOffset ≠ none) ∧
    ((step (.pinMouseUp "node-0-0" "Out" false 9) (run c8Events initState)).selectedNode
      = some "node-0-0") ∧
    ((step (.pinMouseUp "node-0-0" "Out" false 9) (run c8Events initState)).dragOffset
      ≠ none) := by
  decide

/-- C8 (amended): a pointer-up that reaches the canvas handler always
transitions to Idle, clearing the selection, the captured offset and any
pending draw; a pointer-up over a pin glyph stops propagation and leaves the
node-drag selection and captured offset exactly as they were. -/
theorem C8_amended_pointer_up (s : EditorState) :
    ((step .mouseUp s).selectedNode = none ∧ (step .mouseUp s).dragOffset = none ∧
      (step .mouseUp s).drawingConnection = none) ∧
    (∀ nodeId pinName isInput now,
      (step (.pinMouseUp nodeId pinName isInput now) s).selectedNode = s.selectedNode ∧
      (step (.pinMouseUp nodeId pinName isInput now) s).dragOffset = s.dragOffset) := by
  refine ⟨⟨rfl, rfl, rfl⟩, ?_⟩
  intro nodeId pinName isInput now
  simp only [step]
  unfold handlePinMouseUp
  cases hdc : s.drawingConnection with
  | none => exact ⟨rfl, rfl⟩
  | some dc =>
    by_cases h1 : dc.startNodeId = nodeId
    · simp [h1]
    by_cases h2 : dc.isInput = isInput
    · simp [h1, h2]
    · simp [h1, h2]

end BPEditor
